import Mathlib

/-!
# Verification of the `hls-parse` crate against its specification

Shallow embedding of `crates/hls-parse/src/{parsers,types,builders,constants}.rs`.
Rust `&str` values are modelled as `List Char`; every nom parser becomes a
function `List Char → Option (List Char × α)` (nom errors carry no data that the
crate ever inspects — the sole consumer is `anyhow::bail!("{e}")` at the top
level, which we model by the constant message `parseFailureMsg`).  Fallible
Rust functions return `RustResult`, which distinguishes `Ok`, `Err` and a panic
(`unwrap`/indexing out of bounds).
-/

set_option maxRecDepth 10000

namespace Hls

/-- Characters of a Rust `&str`, modelled as a list of `Char`. -/
abbrev Chars := List Char

/-- Character list of a string literal. -/
def lit (s : String) : Chars := s.toList

/-- Rust `char::is_whitespace` (the Unicode `White_Space` property). -/
def rustIsWhitespace (c : Char) : Bool :=
  c.toNat == 0x09 || c.toNat == 0x0A || c.toNat == 0x0B || c.toNat == 0x0C ||
  c.toNat == 0x0D || c.toNat == 0x20 || c.toNat == 0x85 || c.toNat == 0xA0 ||
  c.toNat == 0x1680 || (decide (0x2000 ≤ c.toNat) && decide (c.toNat ≤ 0x200A)) ||
  c.toNat == 0x2028 || c.toNat == 0x2029 || c.toNat == 0x202F ||
  c.toNat == 0x205F || c.toNat == 0x3000

/-- Rust `str::split(sep)` collected into a `Vec`: the list of the maximal
separator-free segments.  Like in Rust, the result is never empty
(`"".split(c)` yields `[""]`). -/
def rustSplit (sep : Char) : Chars → List Chars
  | [] => [[]]
  | c :: cs =>
    if c = sep then [] :: rustSplit sep cs
    else
      match rustSplit sep cs with
      | [] => [[c]]
      | r :: rs => (c :: r) :: rs

/-- Numeric value of a list of ASCII digits. -/
def natOfDigits (l : Chars) : Nat := l.foldl (fun a c => a * 10 + (c.toNat - 48)) 0

/-- Digit-run check and value for `usize::from_str`, after the optional sign:
at least one character, all ASCII digits, value below `2 ^ 64`. -/
def usizeDigits (t : Chars) : Option Nat :=
  if t ≠ [] ∧ t.all Char.isDigit then
    if natOfDigits t < 2 ^ 64 then some (natOfDigits t) else none
  else none

/-- Rust `usize::from_str`: an optional leading `'+'`, then at least one ASCII
digit, any other character fails; values at or above `2 ^ 64` overflow. -/
def usize_from_str (s : Chars) : Option Nat :=
  match s with
  | '+' :: r => usizeDigits r
  | r => usizeDigits r

/-- ASCII lower-casing, for the case-insensitive `inf`/`nan` keywords. -/
def asciiLower (c : Char) : Char :=
  if 'A' ≤ c ∧ c ≤ 'Z' then Char.ofNat (c.toNat + 32) else c

/-- Drop one leading `'+'` or `'-'`. -/
def stripSign : Chars → Chars
  | '+' :: r => r
  | '-' :: r => r
  | r => r

/-- The grammar accepted by Rust `f32::from_str`:
`[+-]? ( inf | infinity | nan | digits [. digits?] exp? | . digits exp? )`
with `exp = (e|E) [+-]? digits` and keywords case-insensitive.  Overflow and
underflow saturate in Rust and never produce `Err`, so acceptance is purely
grammatical.  The embedding keeps the accepted token itself as the parsed
value (no claim depends on float arithmetic). -/
def f32_accepts (s : Chars) : Bool :=
  let t := stripSign s
  let low := t.map asciiLower
  if low = lit "inf" ∨ low = lit "infinity" ∨ low = lit "nan" then true
  else
    let d1 := t.takeWhile Char.isDigit
    let r1 := t.dropWhile Char.isDigit
    let hasDot := match r1 with
      | '.' :: _ => true
      | _ => false
    let afterDot := match r1 with
      | '.' :: r => r
      | r => r
    let d2 := if hasDot then afterDot.takeWhile Char.isDigit else []
    let r2 := if hasDot then afterDot.dropWhile Char.isDigit else r1
    if d1 = [] ∧ (hasDot = false ∨ d2 = []) then false
    else
      match r2 with
      | [] => true
      | e :: r3 =>
        if e = 'e' ∨ e = 'E' then
          let r4 := stripSign r3
          decide (r4 ≠ []) && r4.all Char.isDigit
        else false

/-- Outcome of a fallible Rust computation: `Ok`, `Err`, or a process panic
(`expect`, out-of-bounds indexing). -/
inductive RustResult (ε α : Type) where
  | ok (a : α)
  | err (e : ε)
  | panic
deriving DecidableEq

/-- How `nom::combinator::map_res` consumes a `Result`: `Err` becomes a parse
failure.  A Rust panic would abort the whole process; collapsing it to a parse
failure as well is sound here because every enclosing `alt` branch has already
committed to a distinguishing tag, so a panicking run can never be turned into
a successful parse of the same input. -/
def RustResult.toParseOption : RustResult ε α → Option α
  | .ok a => some a
  | _ => none

/-! ## nom combinators

A parser takes the input and returns the remaining input plus the parsed
value, or `none` on failure. -/

/-- A nom parser specialised to `&str` input. -/
def NomP (α : Type) : Type := Chars → Option (Chars × α)

/-- `Ok((input, a))` without consuming anything. -/
def npure (a : α) : NomP α := fun s => some (s, a)

/-- Sequencing of nom parsers (nom's tuple syntax). -/
def nbind (p : NomP α) (f : α → NomP β) : NomP β := fun s =>
  match p s with
  | none => none
  | some (s', a) => f a s'

instance : Monad NomP where
  pure := npure
  bind := nbind

/-- `nom::bytes::complete::tag`. -/
def tag (t : Chars) : NomP Chars := fun s =>
  if t.isPrefixOf s then some (s.drop t.length, t) else none

/-- The characters accepted by `nom::character::complete::space0`. -/
def isNomSpace (c : Char) : Bool := c == ' ' || c == '\t'

/-- The characters accepted by `nom::character::complete::multispace0`. -/
def isNomMultispace (c : Char) : Bool := c == ' ' || c == '\t' || c == '\n' || c == '\r'

/-- `nom::character::complete::space0`. -/
def space0 : NomP Chars := fun s =>
  some (s.dropWhile isNomSpace, s.takeWhile isNomSpace)

/-- `nom::character::complete::multispace0`. -/
def multispace0 : NomP Chars := fun s =>
  some (s.dropWhile isNomMultispace, s.takeWhile isNomMultispace)

/-- `nom::character::complete::digit1`. -/
def digit1 : NomP Chars := fun s =>
  if (s.takeWhile Char.isDigit).isEmpty then none
  else some (s.dropWhile Char.isDigit, s.takeWhile Char.isDigit)

/-- `nom::character::complete::newline`. -/
def newline : NomP Char := fun s =>
  match s with
  | '\n' :: r => some (r, '\n')
  | _ => none

/-- A line-ending character. -/
def isLineEnd (c : Char) : Bool := c == '\r' || c == '\n'

/-- `nom::character::complete::not_line_ending` (complete): everything before
`'\r'` or `'\n'`; a `'\r'` not followed by `'\n'` is an error; the line ending
itself is not consumed. -/
def not_line_ending : NomP Chars := fun s =>
  match s.dropWhile (fun c => !isLineEnd c) with
  | '\r' :: t =>
    if t.head? = some '\n' then some ('\r' :: t, s.takeWhile (fun c => !isLineEnd c)) else none
  | rest => some (rest, s.takeWhile (fun c => !isLineEnd c))

/-- `nom::bytes::complete::take_till`. -/
def take_till (p : Char → Bool) : NomP Chars := fun s =>
  some (s.dropWhile (fun c => !p c), s.takeWhile (fun c => !p c))

/-- Worker for `take_until`: scan for the first occurrence of the (non-empty)
pattern, returning the remaining input (starting at the pattern) and the
consumed prefix. -/
def takeUntilAux (t : Chars) : Chars → Option (Chars × Chars)
  | [] => none
  | c :: cs =>
    if t.isPrefixOf (c :: cs) then some (c :: cs, [])
    else
      match takeUntilAux t cs with
      | some (rest, pre) => some (rest, c :: pre)
      | none => none

/-- `nom::bytes::complete::take_until`. -/
def take_until (t : Chars) : NomP Chars := fun s => takeUntilAux t s

/-- `nom::combinator::opt`. -/
def opt (p : NomP α) : NomP (Option α) := fun s =>
  match p s with
  | some (s', a) => some (s', some a)
  | none => some (s, none)

/-- `nom::branch::alt`: try each alternative in order. -/
def alt (ps : List (NomP α)) : NomP α := fun s =>
  match ps with
  | [] => none
  | p :: rest =>
    match p s with
    | some r => some r
    | none => alt rest s

/-- `nom::combinator::map_res`. -/
def map_res (p : NomP α) (f : α → Option β) : NomP β := fun s =>
  match p s with
  | none => none
  | some (s', a) =>
    match f a with
    | some b => some (s', b)
    | none => none

/-- Iteration worker for `many1`.  nom rejects an iteration that consumes
nothing (infinite-loop protection); the fuel `s.length + 1` is enough for any
suffix-consuming parser, which all parsers of this crate are. -/
def many1Loop (p : NomP α) : Nat → Chars → List α → Option (Chars × List α)
  | 0, _, _ => none
  | fuel + 1, s, acc =>
    match p s with
    | none => some (s, acc.reverse)
    | some (s', a) => if s' = s then none else many1Loop p fuel s' (a :: acc)

/-- `nom::multi::many1`. -/
def many1 (p : NomP α) : NomP (List α) := fun s =>
  match p s with
  | none => none
  | some (s', a) => many1Loop p (s.length + 1) s' [a]

/-- `nom::combinator::all_consuming`. -/
def all_consuming (p : NomP α) : NomP α := fun s =>
  match p s with
  | some (rest, a) => if rest.isEmpty then some (rest, a) else none
  | none => none

/-! ## Domain types (`types.rs`) -/

/-- `types::media::AudioChannelInfo`. -/
structure AudioChannelInfo where
  channels : Nat
  joc : Bool
deriving DecidableEq

/-- `types::media::Audio`. -/
structure Audio where
  group_id : Chars
  name : Chars
  language : Chars
  default : Bool
  auto_select : Bool
  channel_info : AudioChannelInfo
  uri : Chars
deriving DecidableEq

/-- `types::stream_info::Resolution`. -/
structure Resolution where
  width : Nat
  height : Nat
deriving DecidableEq

/-- `types::stream_info::StreamInfoCommon`. -/
structure StreamInfoCommon where
  bandwidth : Nat
  codecs : List Chars
  resolution : Resolution
  video_range : Chars
  uri : Chars
deriving DecidableEq

/-- `types::stream_info::StreamInfo`.  The `frame_rate: f32` field is
represented by the raw token accepted by `f32::from_str` (no claim depends on
float arithmetic).  `closed_captions` is the `bool` produced by
`bool_from_cc_str`, which is what the parser in `parsers.rs` feeds into this
slot. -/
structure StreamInfo where
  common : StreamInfoCommon
  average_bandwidth : Nat
  frame_rate : Chars
  audio_codec : Chars
  closed_captions : Bool
deriving DecidableEq

/-- `types::stream_info::IframeStreamInfo`. -/
structure IframeStreamInfo where
  common : StreamInfoCommon
deriving DecidableEq

/-- `HlsPlaylist` (`lib.rs`), with the `AudioStreams`/`Streams`/`IframeStreams`
display wrappers unwrapped to their `inner` vectors. -/
structure HlsPlaylist where
  audio_streams : List Audio
  streams : List StreamInfo
  iframe_streams : List IframeStreamInfo
  version : Nat
deriving DecidableEq

/-- `impl FromStr for AudioChannelInfo` (`types.rs`): split on `'/'`, parse the
first segment as `usize` (with an error context on failure), and set `joc` iff
there is a second segment equal to `"JOC"`. -/
def AudioChannelInfo.from_str (s : Chars) : RustResult String AudioChannelInfo :=
  match rustSplit '/' s with
  | [] => .panic
  | s0 :: rest =>
    match usize_from_str s0 with
    | none => .err ("failed to parse channel count: " ++ String.mk s0)
    | some n => .ok ⟨n, !rest.isEmpty && (rest.headD [] == lit "JOC")⟩

/-- `impl FromStr for Resolution` (`types.rs`): split on `'x'`; parse
`split[0]` as the width (`?` returns the error immediately), then index
`split[1]` — a panic when there is no second segment — and parse it as the
height. -/
def Resolution.from_str (s : Chars) : RustResult String Resolution :=
  match rustSplit 'x' s with
  | [] => .panic
  | s0 :: rest =>
    match usize_from_str s0 with
    | none => .err ("failed to parse pixed width: " ++ String.mk s0)
    | some w =>
      match rest with
      | [] => .panic
      | s1 :: _ =>
        match usize_from_str s1 with
        | none => .err ("failed to parse pixed height: " ++ String.mk s1)
        | some h => .ok ⟨w, h⟩

/-- `impl Ord for Resolution` (`types.rs`), transcribed exactly: compare the
widths; on `Equal` return that comparison, otherwise compare the heights. -/
def Resolution.cmp (a b : Resolution) : Ordering :=
  let width_cmp := compare a.width b.width
  match width_cmp with
  | .eq => width_cmp
  | _ => compare a.height b.height

/-! ## Parameter-name constants (`constants.rs`) -/

def P_AUDIO : String := "AUDIO"
def P_AUTOSELECT : String := "AUTOSELECT"
def P_AVERAGE_BANDWIDTH : String := "AVERAGE-BANDWIDTH"
def P_BANDWIDTH : String := "BANDWIDTH"
def P_CHANNELS : String := "CHANNELS"
def P_CLOSED_CAPTIONS : String := "CLOSED-CAPTIONS"
def P_CODECS : String := "CODECS"
def P_DEFAULT : String := "DEFAULT"
def P_FRAME_RATE : String := "FRAME-RATE"
def P_GROUP_ID : String := "GROUP-ID"
def P_LANGUAGE : String := "LANGUAGE"
def P_NAME : String := "NAME"
def P_RESOLUTION : String := "RESOLUTION"
def P_URI : String := "URI"
def P_VIDEO_RANGE : String := "VIDEO-RANGE"

/-! ## Builders (`builders.rs`)

`AudioBuilder` and its `build` are modelled because claim C4 cites them.  Note
that `parsers.rs` never constructs or invokes any builder. -/

/-- `builders::AudioBuilder`: one optional slot per `Audio` field. -/
structure AudioBuilder where
  group_id : Option Chars
  name : Option Chars
  language : Option Chars
  default : Option Bool
  auto_select : Option Bool
  channel_info : Option AudioChannelInfo
  uri : Option Chars
deriving DecidableEq

/-- The error message prefix used by `AudioBuilder::build`. -/
def audioMissing (p : String) : String := "missing HLS audio param " ++ p

/-- `AudioBuilder::build`: produce the record if every slot is set, otherwise
the error of the first unset field, in declaration order. -/
def AudioBuilder.build (b : AudioBuilder) : RustResult String Audio :=
  match b.group_id with
  | none => .err (audioMissing P_GROUP_ID)
  | some group_id =>
    match b.name with
    | none => .err (audioMissing P_NAME)
    | some name =>
      match b.language with
      | none => .err (audioMissing P_LANGUAGE)
      | some language =>
        match b.default with
        | none => .err (audioMissing P_DEFAULT)
        | some default =>
          match b.auto_select with
          | none => .err (audioMissing P_AUTOSELECT)
          | some auto_select =>
            match b.channel_info with
            | none => .err (audioMissing P_CHANNELS)
            | some channel_info =>
              match b.uri with
              | none => .err (audioMissing P_URI)
              | some uri =>
                .ok ⟨group_id, name, language, default, auto_select, channel_info, uri⟩

/-! ## Tag parsers (`parsers.rs`) -/

/-- `HlsElement` (`parsers.rs`). -/
inductive HlsElement where
  | NoData
  | Audio (a : Hls.Audio)
  | StreamInfo (s : Hls.StreamInfo)
  | IframeStreamInfo (i : Hls.IframeStreamInfo)
  | Version (v : Nat)
deriving DecidableEq

/-- `HlsElement::add_to_playlist`. -/
def HlsElement.add_to_playlist (e : HlsElement) (playlist : HlsPlaylist) : HlsPlaylist :=
  match e with
  | .NoData => playlist
  | .Audio x => { playlist with audio_streams := playlist.audio_streams ++ [x] }
  | .StreamInfo x => { playlist with streams := playlist.streams ++ [x] }
  | .IframeStreamInfo x => { playlist with iframe_streams := playlist.iframe_streams ++ [x] }
  | .Version v => { playlist with version := v }

/-- `extension_prefix()` in the source: the literal `#EXT-X-`. -/
def extensionTag : NomP Chars := tag (lit "#EXT-X-")

/-- `ParamEnclose` (`parsers.rs`). -/
inductive ParamEnclose where
  | None
  | DoubleQuotes

/-- `param_value_no_enclosure`: value terminated by `','` or (Unicode)
whitespace; the single-element `alt` of the source is kept. -/
def param_value_no_enclosure : NomP Chars :=
  alt [take_till (fun c => c == ',' || rustIsWhitespace c)]

/-- `param_value_double_quoted`: `"` … `"`, the value being everything up to
the next `"`. -/
def param_value_double_quoted : NomP Chars :=
  map_res
    (do
      let _ ← tag (lit "\"")
      let v ← take_until (lit "\"")
      let _ ← tag (lit "\"")
      npure v)
    (fun v => some v)

/-- `comma_terminated_param`: `<name> = <value>` with optional spaces and an
optional trailing comma; returns the raw value. -/
def comma_terminated_param (param_name : Chars) (enclosed_by : ParamEnclose) : NomP Chars :=
  map_res
    (do
      let _ ← tag param_name
      let _ ← space0
      let _ ← tag (lit "=")
      let _ ← space0
      let v ← match enclosed_by with
        | ParamEnclose.None => param_value_no_enclosure
        | ParamEnclose.DoubleQuotes => param_value_double_quoted
      let _ ← space0
      let _ ← opt (tag (lit ","))
      npure v)
    (fun v => some v)

/-- `bool_from_param_str`: exactly `YES`/`NO` (the anyhow message is dropped —
`map_res` only observes success or failure). -/
def bool_from_param_str (s : Chars) : Option Bool :=
  if s = lit "YES" then some true
  else if s = lit "NO" then some false
  else none

/-- `bool_from_cc_str`: exactly `CC`/`NONE`. -/
def bool_from_cc_str (s : Chars) : Option Bool :=
  if s = lit "CC" then some true
  else if s = lit "NONE" then some false
  else none

/-- `stream_param_bandwidth`. -/
def stream_param_bandwidth : NomP Nat :=
  map_res (comma_terminated_param (lit "BANDWIDTH") ParamEnclose.None) usize_from_str

/-- `stream_param_codec`: the raw `CODECS` value split on `','`, each piece
stored verbatim. -/
def stream_param_codec : NomP (List Chars) :=
  map_res (comma_terminated_param (lit "CODECS") ParamEnclose.DoubleQuotes)
    (fun s => some (rustSplit ',' s))

/-- `stream_param_resolution`. -/
def stream_param_resolution : NomP Resolution :=
  map_res (comma_terminated_param (lit "RESOLUTION") ParamEnclose.None)
    (fun s => (Resolution.from_str s).toParseOption)

/-- `stream_param_video_range`. -/
def stream_param_video_range : NomP Chars :=
  comma_terminated_param (lit "VIDEO-RANGE") ParamEnclose.None

/-- `hls_header`: `#EXTM3U` plus trailing whitespace, no data. -/
def hls_header : NomP HlsElement :=
  map_res
    (do
      let _ ← tag (lit "#EXTM3U")
      let _ ← multispace0
      npure ())
    (fun _ => some HlsElement.NoData)

/-- `hls_independent_segments`: `#EXT-X-INDEPENDENT-SEGMENTS` plus trailing
whitespace, no data. -/
def hls_independent_segments : NomP HlsElement :=
  map_res
    (do
      let _ ← extensionTag
      let _ ← tag (lit "INDEPENDENT-SEGMENTS")
      let _ ← multispace0
      npure ())
    (fun _ => some HlsElement.NoData)

/-- `hls_version`: `#EXT-X-VERSION:` then a decimal integer. -/
def hls_version : NomP HlsElement :=
  map_res
    (do
      let _ ← extensionTag
      let _ ← tag (lit "VERSION:")
      let v ← map_res digit1 usize_from_str
      let _ ← multispace0
      npure v)
    (fun v => some (HlsElement.Version v))

/-- `hls_audio` (`parsers.rs`): `#EXT-X-MEDIA:TYPE=AUDIO,` then the seven audio
parameters in this fixed order.  The source's tuple-to-struct map is inlined at
the final `npure`. -/
def hls_audio : NomP HlsElement := do
  let _ ← extensionTag
  let _ ← tag (lit "MEDIA:")
  let _ ← space0
  let _ ← tag (lit "TYPE=AUDIO")
  let _ ← space0
  let _ ← tag (lit ",")
  let group_id ← comma_terminated_param (lit "GROUP-ID") ParamEnclose.DoubleQuotes
  let name ← comma_terminated_param (lit "NAME") ParamEnclose.DoubleQuotes
  let language ← comma_terminated_param (lit "LANGUAGE") ParamEnclose.DoubleQuotes
  let default ← map_res (comma_terminated_param (lit "DEFAULT") ParamEnclose.None) bool_from_param_str
  let auto_select ← map_res (comma_terminated_param (lit "AUTOSELECT") ParamEnclose.None) bool_from_param_str
  let channel_info ← map_res (comma_terminated_param (lit "CHANNELS") ParamEnclose.DoubleQuotes)
    (fun s => (AudioChannelInfo.from_str s).toParseOption)
  let uri ← comma_terminated_param (lit "URI") ParamEnclose.DoubleQuotes
  let _ ← multispace0
  npure (HlsElement.Audio ⟨group_id, name, language, default, auto_select, channel_info, uri⟩)

/-- `hls_stream_info` (`parsers.rs`): `#EXT-X-STREAM-INF:`, the eight stream
parameters in this fixed order, then — after the attribute line — a newline
followed by the rest of the next line as the URI. -/
def hls_stream_info : NomP HlsElement := do
  let _ ← extensionTag
  let _ ← tag (lit "STREAM-INF:")
  let _ ← space0
  let bandwidth ← stream_param_bandwidth
  let average_bandwidth ← map_res (comma_terminated_param (lit "AVERAGE-BANDWIDTH") ParamEnclose.None) usize_from_str
  let codecs ← stream_param_codec
  let resolution ← stream_param_resolution
  let frame_rate ← map_res (comma_terminated_param (lit "FRAME-RATE") ParamEnclose.None)
    (fun s => if f32_accepts s then some s else none)
  let video_range ← stream_param_video_range
  let audio_codec ← comma_terminated_param (lit "AUDIO") ParamEnclose.DoubleQuotes
  let closed_captions ← map_res (comma_terminated_param (lit "CLOSED-CAPTIONS") ParamEnclose.None) bool_from_cc_str
  let _ ← space0
  let _ ← newline
  let uri ← not_line_ending
  let _ ← multispace0
  npure (HlsElement.StreamInfo
    ⟨⟨bandwidth, codecs, resolution, video_range, uri⟩,
      average_bandwidth, frame_rate, audio_codec, closed_captions⟩)

/-- `hls_iframe_stream_info` (`parsers.rs`): `#EXT-X-I-FRAME-STREAM-INF:` with
its five parameters in this fixed order; here `URI` is an ordinary quoted
attribute. -/
def hls_iframe_stream_info : NomP HlsElement := do
  let _ ← extensionTag
  let _ ← tag (lit "I-FRAME-STREAM-INF:")
  let _ ← space0
  let bandwidth ← stream_param_bandwidth
  let codecs ← stream_param_codec
  let resolution ← stream_param_resolution
  let video_range ← stream_param_video_range
  let uri ← comma_terminated_param (lit "URI") ParamEnclose.DoubleQuotes
  let _ ← multispace0
  npure (HlsElement.IframeStreamInfo ⟨⟨bandwidth, codecs, resolution, video_range, uri⟩⟩)

/-- The constant standing for the message of `anyhow::bail!("{e}")` in
`parse_hls_playlist`: the display of the propagated nom error.  The crate never
constructs this message from builder output; the exact text is irrelevant to
every claim, only its provenance (a nom parse failure) matters. -/
def parseFailureMsg : String := "Parsing Error"

/-- The alternatives tried by `parse_hls_playlist`, in source order.  Note:
there is no branch for a generic `#` comment line. -/
def hlsAlternatives : List (NomP HlsElement) :=
  [hls_stream_info, hls_iframe_stream_info, hls_audio, hls_version,
   hls_independent_segments, hls_header]

/-- `parse_hls_playlist` (`parsers.rs`): run
`all_consuming(many1(alt(...)))`, then fold every element into a default
playlist (`version` defaults to `0`). -/
def parse_hls_playlist (data : Chars) : RustResult String HlsPlaylist :=
  match all_consuming (many1 (alt hlsAlternatives)) data with
  | some (_, components) =>
    .ok (components.foldl (fun pl e => e.add_to_playlist pl) ⟨[], [], [], 0⟩)
  | none => .err parseFailureMsg

/-! ## Projections of `HlsElement`, used to state order/count preservation -/

/-- The audio record carried by an element, if any. -/
def projAudio : HlsElement → Option Audio
  | .Audio a => some a
  | _ => none

/-- The variant-stream record carried by an element, if any. -/
def projStream : HlsElement → Option StreamInfo
  | .StreamInfo s => some s
  | _ => none

/-- The iframe record carried by an element, if any. -/
def projIframe : HlsElement → Option IframeStreamInfo
  | .IframeStreamInfo i => some i
  | _ => none

/-- The version carried by an element, if any. -/
def projVersion : HlsElement → Option Nat
  | .Version v => some v
  | _ => none


/-! ## Concrete fixtures (drawn from the crate's own tests in `lib.rs`) -/

/-- The canonical audio declaration of `test_parse_audio`. -/
def audioLine : Chars := lit "#EXT-X-MEDIA:TYPE=AUDIO,GROUP-ID=\"aac-128k\",NAME=\"English\",LANGUAGE=\"en\",DEFAULT=YES,AUTOSELECT=YES,CHANNELS=\"2\",URI=\"audio/unenc/aac_128k/vod.m3u8\"\n"

/-- The same audio declaration with its first two attributes swapped. -/
def audioLineSwapFirst : Chars := lit "#EXT-X-MEDIA:TYPE=AUDIO,NAME=\"English\",GROUP-ID=\"aac-128k\",LANGUAGE=\"en\",DEFAULT=YES,AUTOSELECT=YES,CHANNELS=\"2\",URI=\"audio/unenc/aac_128k/vod.m3u8\"\n"

/-- The same audio declaration with its last two attributes swapped. -/
def audioLineSwapLast : Chars := lit "#EXT-X-MEDIA:TYPE=AUDIO,GROUP-ID=\"aac-128k\",NAME=\"English\",LANGUAGE=\"en\",DEFAULT=YES,AUTOSELECT=YES,URI=\"audio/unenc/aac_128k/vod.m3u8\",CHANNELS=\"2\"\n"

/-- The record the canonical audio line parses to. -/
def audioRecord : Audio :=
  ⟨lit "aac-128k", lit "English", lit "en", true, true, ⟨2, false⟩,
    lit "audio/unenc/aac_128k/vod.m3u8"⟩

/-- The first iframe declaration of `test_parse_iframe`. -/
def iframeLine : Chars := lit "#EXT-X-I-FRAME-STREAM-INF:BANDWIDTH=222552,CODECS=\"hvc1.2.4.L93.90\",RESOLUTION=1280x720,VIDEO-RANGE=PQ,URI=\"hdr10/unenc/3300k/vod-iframe.m3u8\"\n"

/-- The same iframe declaration with `CODECS` and `RESOLUTION` swapped. -/
def iframeLineSwapped : Chars := lit "#EXT-X-I-FRAME-STREAM-INF:BANDWIDTH=222552,RESOLUTION=1280x720,CODECS=\"hvc1.2.4.L93.90\",VIDEO-RANGE=PQ,URI=\"hdr10/unenc/3300k/vod-iframe.m3u8\"\n"

/-- The record the iframe line parses to. -/
def iframeRecord : IframeStreamInfo :=
  ⟨⟨222552, [lit "hvc1.2.4.L93.90"], ⟨1280, 720⟩, lit "PQ",
    lit "hdr10/unenc/3300k/vod-iframe.m3u8"⟩⟩

/-- The document of the crate's `test_parse_no_data` test: header,
independent-segments marker, and a generic comment line. -/
def commentDoc : Chars := lit "#EXTM3U\n#EXT-X-INDEPENDENT-SEGMENTS\n# other comment\n"

/-- An audio declaration with all attributes except `URI`. -/
def audioMissingUriDoc : Chars := lit "#EXT-X-MEDIA:TYPE=AUDIO,GROUP-ID=\"a\",NAME=\"n\",LANGUAGE=\"en\",DEFAULT=YES,AUTOSELECT=YES,CHANNELS=\"2\"\n"

/-- An `AudioBuilder` with every slot set except `uri`. -/
def missingUriBuilder : AudioBuilder :=
  ⟨some (lit "a"), some (lit "n"), some (lit "en"), some true, some true,
    some ⟨2, false⟩, none⟩

/-- The first variant-stream declaration of `test_parse_stream`, with its URI
on the following line. -/
def streamDoc : Chars := lit "#EXT-X-STREAM-INF:BANDWIDTH=2483789,AVERAGE-BANDWIDTH=1762745,CODECS=\"mp4a.40.2,hvc1.2.4.L90.90\",RESOLUTION=960x540,FRAME-RATE=23.97,VIDEO-RANGE=PQ,AUDIO=\"aac-128k\",CLOSED-CAPTIONS=NONE\nhdr10/unenc/1650k/vod.m3u8\n"

/-- The record `streamDoc` parses to. -/
def streamRecord : StreamInfo :=
  ⟨⟨2483789, [lit "mp4a.40.2", lit "hvc1.2.4.L90.90"], ⟨960, 540⟩, lit "PQ",
    lit "hdr10/unenc/1650k/vod.m3u8"⟩, 1762745, lit "23.97", lit "aac-128k", false⟩

/-- A document with a header, one version, one audio, one variant-stream and
one iframe declaration. -/
def sampleDoc : Chars := lit "#EXTM3U\n#EXT-X-VERSION:6\n" ++ audioLine ++ streamDoc ++ iframeLine

/-- The playlist `sampleDoc` parses to. -/
def samplePlaylist : HlsPlaylist := ⟨[audioRecord], [streamRecord], [iframeRecord], 6⟩

/-- Two version declarations, 3 then 7. -/
def twoVersionDoc : Chars := lit "#EXT-X-VERSION:3\n#EXT-X-VERSION:7\n"

/-- A document with no version declaration. -/
def headerOnlyDoc : Chars := lit "#EXTM3U\n"

/-! ## Basic characterizations of the combinators -/

theorem bindNomP_eq (p : NomP α) (f : α → NomP β) : p >>= f = nbind p f := rfl

theorem nbind_eq_some {p : NomP α} {f : α → NomP β} {s : Chars} {r : Chars × β} :
    nbind p f s = some r ↔ ∃ s' a, p s = some (s', a) ∧ f a s' = some r := by
  unfold nbind
  cases h : p s with
  | none => simp
  | some x =>
    rcases x with ⟨s1, a⟩
    simp only [Option.some.injEq, Prod.mk.injEq]
    constructor
    · intro hf
      exact ⟨s1, a, ⟨rfl, rfl⟩, hf⟩
    · rintro ⟨s2, a2, ⟨rfl, rfl⟩, hf⟩
      exact hf

theorem npure_eq_some {a : α} {s : Chars} {r : Chars × α} :
    npure a s = some r ↔ r = (s, a) := by
  unfold npure
  simp [eq_comm]

theorem tag_eq_some {t s s' : Chars} {v : Chars} :
    tag t s = some (s', v) ↔ v = t ∧ s = t ++ s' := by
  unfold tag
  split
  case isTrue h =>
    obtain ⟨u, rfl⟩ := List.isPrefixOf_iff_prefix.mp h
    rw [List.drop_left]
    simp only [Option.some.injEq, Prod.mk.injEq]
    constructor
    · rintro ⟨h1, h2⟩
      subst h1; subst h2
      exact ⟨rfl, rfl⟩
    · rintro ⟨h1, h2⟩
      subst h1
      exact ⟨List.append_cancel_left h2, rfl⟩
  case isFalse h =>
    constructor
    · intro hh
      exact absurd hh (by simp)
    · rintro ⟨h1, h2⟩
      subst h1; subst h2
      exact absurd (List.isPrefixOf_iff_prefix.mpr ⟨_, rfl⟩) h

theorem newline_eq_some {s s' : Chars} {c : Char} (h : newline s = some (s', c)) :
    s = '\n' :: s' := by
  unfold newline at h
  split at h
  · simp at h; rw [h.1]
  · simp at h

theorem dropWhile_head_false (p : Char → Bool) :
    ∀ (l : Chars) (c : Char) (t : Chars), l.dropWhile p = c :: t → p c = false := by
  intro l
  induction l with
  | nil => intro c t h; simp at h
  | cons a l ih =>
    intro c t h
    rw [List.dropWhile_cons] at h
    split at h
    · exact ih c t h
    · cases h; simp_all

theorem not_line_ending_eq_some {s s' v : Chars} (h : not_line_ending s = some (s', v)) :
    s = v ++ s' ∧ (∀ c ∈ v, isLineEnd c = false) ∧
      (s' = [] ∨ (∃ t, s' = '\n' :: t) ∨ (∃ t, s' = '\r' :: t)) := by
  unfold not_line_ending at h
  have hsplit := (List.takeWhile_append_dropWhile (fun c => !isLineEnd c) s).symm
  have hmem : ∀ c ∈ s.takeWhile (fun c => !isLineEnd c), isLineEnd c = false := by
    intro c hc
    have := List.mem_takeWhile_imp hc
    simpa using this
  split at h
  case h_1 t heq =>
    split at h
    case isTrue h2 =>
      simp only [Option.some.injEq, Prod.mk.injEq] at h
      obtain ⟨h3, h4⟩ := h
      subst h3; subst h4
      refine ⟨hsplit.trans (by rw [heq]), hmem, ?_⟩
      right; right; exact ⟨t, rfl⟩
    case isFalse h2 => exact absurd h (by simp)
  case h_2 x heq =>
    simp only [Option.some.injEq, Prod.mk.injEq] at h
    obtain ⟨h3, h4⟩ := h
    subst h3; subst h4
    refine ⟨hsplit, hmem, ?_⟩
    rcases hdw : List.dropWhile (fun c => !isLineEnd c) s with _ | ⟨c, t⟩
    · left; rfl
    · have hc : isLineEnd c = true := by
        have := dropWhile_head_false (fun c => !isLineEnd c) s c t hdw
        simpa using this
      unfold isLineEnd at hc
      simp at hc
      rcases hc with hc | hc
      · subst hc
        exact absurd hdw (heq t)
      · subst hc
        right; left; exact ⟨t, rfl⟩

/-! ## Consumption: every parser of this development only drops a prefix -/

theorem consumes_tag (t : Chars) :
    ∀ s s' (a : Chars), tag t s = some (s', a) → ∃ pre, s = pre ++ s' := by
  intro s s' a h
  exact ⟨t, (tag_eq_some.mp h).2⟩

theorem consumes_space0 : ∀ s s' (a : Chars), space0 s = some (s', a) → ∃ pre, s = pre ++ s' := by
  intro s s' a h
  unfold space0 at h
  simp only [Option.some.injEq, Prod.mk.injEq] at h
  obtain ⟨h1, _⟩ := h
  subst h1
  exact ⟨s.takeWhile isNomSpace, (List.takeWhile_append_dropWhile isNomSpace s).symm⟩

theorem consumes_multispace0 :
    ∀ s s' (a : Chars), multispace0 s = some (s', a) → ∃ pre, s = pre ++ s' := by
  intro s s' a h
  unfold multispace0 at h
  simp only [Option.some.injEq, Prod.mk.injEq] at h
  obtain ⟨h1, _⟩ := h
  subst h1
  exact ⟨s.takeWhile isNomMultispace, (List.takeWhile_append_dropWhile isNomMultispace s).symm⟩

theorem consumes_take_till (p : Char → Bool) :
    ∀ s s' (a : Chars), take_till p s = some (s', a) → ∃ pre, s = pre ++ s' := by
  intro s s' a h
  unfold take_till at h
  simp only [Option.some.injEq, Prod.mk.injEq] at h
  obtain ⟨h1, _⟩ := h
  subst h1
  exact ⟨_, (List.takeWhile_append_dropWhile _ s).symm⟩

theorem takeUntilAux_append (t : Chars) :
    ∀ s rest pre, takeUntilAux t s = some (rest, pre) → s = pre ++ rest := by
  intro s
  induction s with
  | nil => intro rest pre h; simp [takeUntilAux] at h
  | cons c cs ih =>
    intro rest pre h
    unfold takeUntilAux at h
    split at h
    · simp only [Option.some.injEq, Prod.mk.injEq] at h
      obtain ⟨h1, h2⟩ := h
      subst h1; subst h2
      rfl
    · split at h
      case h_1 r p heq =>
        simp only [Option.some.injEq, Prod.mk.injEq] at h
        obtain ⟨h1, h2⟩ := h
        subst h1; subst h2
        have := ih r p heq
        rw [this]
        rfl
      case h_2 => exact absurd h (by simp)

theorem consumes_take_until (t : Chars) :
    ∀ s s' (a : Chars), take_until t s = some (s', a) → ∃ pre, s = pre ++ s' := by
  intro s s' a h
  exact ⟨a, takeUntilAux_append t s s' a h⟩

theorem consumes_newline : ∀ s s' (a : Char), newline s = some (s', a) → ∃ pre, s = pre ++ s' := by
  intro s s' a h
  exact ⟨['\n'], newline_eq_some h⟩

theorem consumes_not_line_ending :
    ∀ s s' (a : Chars), not_line_ending s = some (s', a) → ∃ pre, s = pre ++ s' := by
  intro s s' a h
  exact ⟨a, (not_line_ending_eq_some h).1⟩

theorem consumes_digit1 : ∀ s s' (a : Chars), digit1 s = some (s', a) → ∃ pre, s = pre ++ s' := by
  intro s s' a h
  unfold digit1 at h
  split at h
  · exact absurd h (by simp)
  · simp only [Option.some.injEq, Prod.mk.injEq] at h
    obtain ⟨h1, _⟩ := h
    subst h1
    exact ⟨_, (List.takeWhile_append_dropWhile _ s).symm⟩

theorem consumes_npure (a : α) :
    ∀ s s' (b : α), npure a s = some (s', b) → ∃ pre, s = pre ++ s' := by
  intro s s' b h
  rw [npure_eq_some] at h
  exact ⟨[], by simp [(Prod.mk.injEq .. ▸ h).1]⟩

theorem consumes_nbind {p : NomP α} {f : α → NomP β}
    (hp : ∀ s s' a, p s = some (s', a) → ∃ pre, s = pre ++ s')
    (hf : ∀ a s s' b, f a s = some (s', b) → ∃ pre, s = pre ++ s') :
    ∀ s s' b, nbind p f s = some (s', b) → ∃ pre, s = pre ++ s' := by
  intro s s' b h
  rw [nbind_eq_some] at h
  obtain ⟨s1, a, h1, h2⟩ := h
  obtain ⟨p1, e1⟩ := hp s s1 a h1
  obtain ⟨p2, e2⟩ := hf a s1 s' b h2
  subst e1; subst e2
  exact ⟨p1 ++ p2, by rw [List.append_assoc]⟩

theorem consumes_bindM {p : NomP α} {f : α → NomP β}
    (hp : ∀ s s' a, p s = some (s', a) → ∃ pre, s = pre ++ s')
    (hf : ∀ a s s' b, f a s = some (s', b) → ∃ pre, s = pre ++ s') :
    ∀ s s' b, (p >>= f) s = some (s', b) → ∃ pre, s = pre ++ s' :=
  consumes_nbind hp hf

theorem consumes_map_res {p : NomP α} {f : α → Option β}
    (hp : ∀ s s' a, p s = some (s', a) → ∃ pre, s = pre ++ s') :
    ∀ s u b, map_res p f s = some (u, b) → ∃ pre, s = pre ++ u := by
  intro s u b h
  unfold map_res at h
  split at h
  · exact absurd h (by simp)
  · rename_i s1 a heq
    split at h
    · rename_i b2 hfa
      simp only [Option.some.injEq, Prod.mk.injEq] at h
      obtain ⟨h1, _⟩ := h
      subst h1
      exact hp _ _ _ heq
    · exact absurd h (by simp)

theorem consumes_opt {p : NomP α}
    (hp : ∀ s s' a, p s = some (s', a) → ∃ pre, s = pre ++ s') :
    ∀ s u b, opt p s = some (u, b) → ∃ pre, s = pre ++ u := by
  intro s u b h
  unfold opt at h
  split at h
  · rename_i s1 a heq
    simp only [Option.some.injEq, Prod.mk.injEq] at h
    obtain ⟨h1, _⟩ := h
    subst h1
    exact hp _ _ _ heq
  · simp only [Option.some.injEq, Prod.mk.injEq] at h
    obtain ⟨h1, _⟩ := h
    subst h1
    exact ⟨[], rfl⟩

theorem consumes_pvne :
    ∀ s s' (a : Chars), param_value_no_enclosure s = some (s', a) → ∃ pre, s = pre ++ s' := by
  intro s s' a h
  unfold param_value_no_enclosure alt at h
  split at h
  case h_1 r heq =>
    cases h
    exact consumes_take_till _ s s' a heq
  case h_2 heq => exact absurd h (by simp [alt])

theorem consumes_pvdq :
    ∀ s s' (a : Chars), param_value_double_quoted s = some (s', a) → ∃ pre, s = pre ++ s' := by
  unfold param_value_double_quoted
  apply consumes_map_res
  apply consumes_bindM (consumes_tag _)
  intro v
  apply consumes_bindM (consumes_take_until _)
  intro u
  apply consumes_bindM (consumes_tag _)
  intro w
  exact consumes_npure _

theorem consumes_ctp (n : Chars) (e : ParamEnclose) :
    ∀ s s' (a : Chars), comma_terminated_param n e s = some (s', a) → ∃ pre, s = pre ++ s' := by
  cases e with
  | None =>
    unfold comma_terminated_param
    apply consumes_map_res
    apply consumes_bindM (consumes_tag _); intro a1
    apply consumes_bindM consumes_space0; intro a2
    apply consumes_bindM (consumes_tag _); intro a3
    apply consumes_bindM consumes_space0; intro a4
    apply consumes_bindM consumes_pvne; intro v
    apply consumes_bindM consumes_space0; intro a5
    apply consumes_bindM (consumes_opt (consumes_tag _)); intro a6
    exact consumes_npure _
  | DoubleQuotes =>
    unfold comma_terminated_param
    apply consumes_map_res
    apply consumes_bindM (consumes_tag _); intro a1
    apply consumes_bindM consumes_space0; intro a2
    apply consumes_bindM (consumes_tag _); intro a3
    apply consumes_bindM consumes_space0; intro a4
    apply consumes_bindM consumes_pvdq; intro v
    apply consumes_bindM consumes_space0; intro a5
    apply consumes_bindM (consumes_opt (consumes_tag _)); intro a6
    exact consumes_npure _

/-! ## The playlist fold: order and count preservation -/

theorem foldl_audio_streams (cs : List HlsElement) (pl : HlsPlaylist) :
    (cs.foldl (fun pl e => e.add_to_playlist pl) pl).audio_streams =
      pl.audio_streams ++ cs.filterMap projAudio := by
  induction cs generalizing pl with
  | nil => simp
  | cons e cs ih =>
    rw [List.foldl_cons, ih]
    cases e <;> simp [HlsElement.add_to_playlist, projAudio, List.filterMap_cons, List.append_assoc]

theorem foldl_streams (cs : List HlsElement) (pl : HlsPlaylist) :
    (cs.foldl (fun pl e => e.add_to_playlist pl) pl).streams =
      pl.streams ++ cs.filterMap projStream := by
  induction cs generalizing pl with
  | nil => simp
  | cons e cs ih =>
    rw [List.foldl_cons, ih]
    cases e <;> simp [HlsElement.add_to_playlist, projStream, List.filterMap_cons, List.append_assoc]

theorem foldl_iframe_streams (cs : List HlsElement) (pl : HlsPlaylist) :
    (cs.foldl (fun pl e => e.add_to_playlist pl) pl).iframe_streams =
      pl.iframe_streams ++ cs.filterMap projIframe := by
  induction cs generalizing pl with
  | nil => simp
  | cons e cs ih =>
    rw [List.foldl_cons, ih]
    cases e <;> simp [HlsElement.add_to_playlist, projIframe, List.filterMap_cons, List.append_assoc]

theorem getLastD_cons (l : List Nat) : ∀ (a d : Nat),
    ((a :: l).getLast?).getD d = (l.getLast?).getD a := by
  induction l with
  | nil => intro a d; rfl
  | cons b l ih =>
    intro a d
    rw [List.getLast?_cons_cons, ih b d, ih b a]

theorem foldl_version (cs : List HlsElement) (pl : HlsPlaylist) :
    (cs.foldl (fun pl e => e.add_to_playlist pl) pl).version =
      ((cs.filterMap projVersion).getLast?).getD pl.version := by
  induction cs generalizing pl with
  | nil => rfl
  | cons e cs ih =>
    rw [List.foldl_cons, ih]
    cases e <;> simp [HlsElement.add_to_playlist, projVersion, List.filterMap_cons, getLastD_cons]

/-- Success of `all_consuming` forces empty remaining input. -/
theorem all_consuming_eq_some {p : NomP α} {s rest : Chars} {a : α}
    (h : all_consuming p s = some (rest, a)) :
    rest = [] ∧ ∃ r, p s = some (r, a) ∧ r = [] := by
  unfold all_consuming at h
  split at h
  · rename_i r b heq
    split at h
    · rename_i hr
      simp only [Option.some.injEq, Prod.mk.injEq] at h
      obtain ⟨h1, h2⟩ := h
      subst h1; subst h2
      exact ⟨List.isEmpty_iff.mp hr, r, heq, List.isEmpty_iff.mp hr⟩
    · exact absurd h (by simp)
  · exact absurd h (by simp)

/-! ## Forward evaluation lemmas for a symbolic quoted value -/

theorem map_res_eq_some {p : NomP α} {f : α → Option β} {s u : Chars} {b : β} :
    map_res p f s = some (u, b) ↔ ∃ a, p s = some (u, a) ∧ f a = some b := by
  constructor
  · intro hh
    unfold map_res at hh
    split at hh
    · exact absurd hh (by simp)
    · rename_i s1 a hps
      split at hh
      · rename_i b2 hfa
        simp only [Option.some.injEq, Prod.mk.injEq] at hh
        obtain ⟨h1, h2⟩ := hh
        subst h1; subst h2
        exact ⟨a, hps, hfa⟩
      · exact absurd hh (by simp)
  · rintro ⟨a, ha1, ha2⟩
    unfold map_res
    rw [ha1]
    simp [ha2]

theorem takeUntil_quote (v : Chars) (r : Chars) (hv : ∀ c ∈ v, ¬ c = '"') :
    takeUntilAux (lit "\"") (v ++ '"' :: r) = some ('"' :: r, v) := by
  induction v with
  | nil =>
    show takeUntilAux (lit "\"") ('"' :: r) = some ('"' :: r, [])
    unfold takeUntilAux
    rw [if_pos]
    show (lit "\"").isPrefixOf ('"' :: r) = true
    simp [lit, List.isPrefixOf]
  | cons c cs ih =>
    have hc : ¬ c = '"' := hv c (by simp)
    have htail : ∀ x ∈ cs, ¬ x = '"' := fun x hx => hv x (by simp [hx])
    show takeUntilAux (lit "\"") (c :: (cs ++ '"' :: r)) = some ('"' :: r, c :: cs)
    have hnp : (lit "\"").isPrefixOf (c :: (cs ++ '"' :: r)) = false := by
      simp [lit, List.isPrefixOf]
      intro hcc
      exact absurd hcc.symm hc
    unfold takeUntilAux
    rw [hnp]
    simp only [Bool.false_eq_true, if_false]
    rw [ih htail]

/-! ## Lemmas on `rustSplit` and `usize_from_str` -/

theorem usizeDigits_digits {t : Chars} {n : Nat} (h : usizeDigits t = some n) :
    ∀ c ∈ t, c.isDigit = true := by
  unfold usizeDigits at h
  split at h
  · rename_i hcond
    intro c hc
    exact List.all_eq_true.mp hcond.2 c hc
  · exact absurd h (by simp)

theorem usize_no_slash (l : Chars) (n : Nat) (h : usize_from_str l = some n) :
    ∀ c ∈ l, ¬ c = '/' := by
  have hdig : ∀ c (t : Chars), c.isDigit = true → ¬ c = '/' := by
    intro c t hd hc
    subst hc
    simp [Char.isDigit] at hd
  unfold usize_from_str at h
  split at h
  · rename_i r
    intro c hc
    rcases List.mem_cons.mp hc with hc | hc
    · subst hc; decide
    · exact hdig c r (usizeDigits_digits h c hc)
  · intro c hc
    exact hdig c l (usizeDigits_digits h c hc)

theorem rustSplit_no_sep (sep : Char) (s : Chars) (h : ∀ c ∈ s, ¬ c = sep) :
    rustSplit sep s = [s] := by
  induction s with
  | nil => rfl
  | cons c cs ih =>
    have hc : ¬ c = sep := h c (by simp)
    have htail : ∀ x ∈ cs, ¬ x = sep := fun x hx => h x (by simp [hx])
    unfold rustSplit
    rw [if_neg hc, ih htail]

theorem rustSplit_append (sep : Char) (a b : Chars) (h : ∀ c ∈ a, ¬ c = sep) :
    rustSplit sep (a ++ sep :: b) = a :: rustSplit sep b := by
  induction a with
  | nil =>
    show rustSplit sep (sep :: b) = [] :: rustSplit sep b
    conv_lhs => unfold rustSplit
    rw [if_pos rfl]
  | cons c cs ih =>
    have hc : ¬ c = sep := h c (by simp)
    have htail : ∀ x ∈ cs, ¬ x = sep := fun x hx => h x (by simp [hx])
    show rustSplit sep (c :: (cs ++ sep :: b)) = (c :: cs) :: rustSplit sep b
    conv_lhs => unfold rustSplit
    rw [if_neg hc, ih htail]

/-- Claim C10 (corrected): for a raw `CHANNELS` value `<n>/<s>` where the
first segment parses as a non-negative integer and `<s>` contains no further
`'/'` and differs from `"JOC"`, parsing succeeds with `channels = n` and
`joc = false`. -/
theorem c10_channels_unrecognized_segment (nstr s : Chars) (n : Nat) (hn : usize_from_str nstr = some n)
    (hs : ∀ c ∈ s, ¬ c = '/') (hne : s ≠ lit "JOC") :
    AudioChannelInfo.from_str (nstr ++ '/' :: s) = .ok ⟨n, false⟩ := by
  have hnf : ∀ c ∈ nstr, ¬ c = '/' := usize_no_slash nstr n hn
  unfold AudioChannelInfo.from_str
  rw [rustSplit_append '/' nstr s hnf, rustSplit_no_sep '/' s hs]
  dsimp only
  rw [hn]
  simp [beq_eq_false_iff_ne, hne]

/-- Exact characterization of `Resolution.from_str` success: the first two
segments of the `'x'`-split must parse as integers; segments beyond the second
are ignored. -/
theorem resolution_from_str_characterization (s : Chars) (w h : Nat) :
    Resolution.from_str s = .ok ⟨w, h⟩ ↔
      ∃ s0 s1 rest, rustSplit 'x' s = s0 :: s1 :: rest ∧
        usize_from_str s0 = some w ∧ usize_from_str s1 = some h := by
  unfold Resolution.from_str
  rcases hsp : rustSplit 'x' s with _ | ⟨s0, rest⟩
  · simp
  · dsimp only
    rcases hu : usize_from_str s0 with _ | w0
    · constructor
      · intro hh; exact absurd hh (by simp)
      · rintro ⟨a, b, r2, heq, hw, hh⟩
        simp only [List.cons.injEq] at heq
        obtain ⟨h1, h2⟩ := heq
        subst h1
        rw [hu] at hw
        exact absurd hw (by simp)
    · dsimp only
      rcases rest with _ | ⟨s1, rest2⟩
      · dsimp only
        constructor
        · intro hh; exact absurd hh (by simp)
        · rintro ⟨a, b, r2, heq, hw, hh⟩
          simp at heq
      · dsimp only
        rcases hu2 : usize_from_str s1 with _ | h0
        · dsimp only
          constructor
          · intro hh; exact absurd hh (by simp)
          · rintro ⟨a, b, r2, heq, hw, hh⟩
            simp only [List.cons.injEq] at heq
            obtain ⟨h1, h2, h3⟩ := heq
            subst h2
            rw [hu2] at hh
            exact absurd hh (by simp)
        · dsimp only
          constructor
          · intro hh
            injection hh with hres
            injection hres with hw0 hh0
            subst hw0; subst hh0
            exact ⟨s0, s1, rest2, rfl, hu, hu2⟩
          · rintro ⟨a, b, r2, heq, hw, hh⟩
            simp only [List.cons.injEq] at heq
            obtain ⟨h1, h2, h3⟩ := heq
            subst h1; subst h2
            rw [hu] at hw
            injection hw with hw
            rw [hu2] at hh
            injection hh with hh
            subst hw; subst hh
            rfl

/-- Claim C6 (confirmed): every successful parse arises from a component list
(one element per recognized declaration, in source order) such that the three
record sequences of the playlist are exactly the order-preserving projections
of that list — counts and relative order match the declarations. -/
theorem c6_record_counts_and_order (s : Chars) (pl : HlsPlaylist) (h : parse_hls_playlist s = .ok pl) :
    ∃ components, all_consuming (many1 (alt hlsAlternatives)) s = some ([], components) ∧
      pl.audio_streams = components.filterMap projAudio ∧
      pl.streams = components.filterMap projStream ∧
      pl.iframe_streams = components.filterMap projIframe := by
  unfold parse_hls_playlist at h
  split at h
  · rename_i rest comps heq
    injection h with h1
    obtain ⟨hrest, _⟩ := all_consuming_eq_some heq
    subst hrest
    refine ⟨comps, heq, ?_, ?_, ?_⟩
    · rw [← h1, foldl_audio_streams]; rfl
    · rw [← h1, foldl_streams]; rfl
    · rw [← h1, foldl_iframe_streams]; rfl
  · exact absurd h (by simp)

/-- Claim C7 (confirmed): every successful parse arises from a component list
whose last version element (if any) gives the playlist version, and the
version defaults to 0 when no version declaration occurs. -/
theorem c7_version_last_wins (s : Chars) (pl : HlsPlaylist) (h : parse_hls_playlist s = .ok pl) :
    ∃ components, all_consuming (many1 (alt hlsAlternatives)) s = some ([], components) ∧
      pl.version = ((components.filterMap projVersion).getLast?).getD 0 := by
  unfold parse_hls_playlist at h
  split at h
  · rename_i rest comps heq
    injection h with h1
    obtain ⟨hrest, _⟩ := all_consuming_eq_some heq
    subst hrest
    refine ⟨comps, heq, ?_⟩
    rw [← h1, foldl_version]
  · exact absurd h (by simp)

/-- Claim C5 (confirmed): whenever `hls_stream_info` succeeds, the parsed
record is a variant stream whose `common.uri` is exactly the full text of the
line immediately following the first newline after the attribute segment: the
input splits as `pre ++ '\n' :: (uri ++ post)` where `uri` contains no line
ending and `post` is empty or starts at a line ending. -/
theorem c5_variant_uri_from_next_line {s rest : Chars} {el : HlsElement}
    (h : hls_stream_info s = some (rest, el)) :
    ∃ rec pre post, el = HlsElement.StreamInfo rec ∧
      s = pre ++ '\n' :: (rec.common.uri ++ post) ∧
      (∀ c ∈ rec.common.uri, isLineEnd c = false) ∧
      (post = [] ∨ (∃ t, post = '\n' :: t) ∨ (∃ t, post = '\r' :: t)) := by
  simp only [hls_stream_info, extensionTag, bindNomP_eq, nbind_eq_some, npure_eq_some] at h
  obtain ⟨s1, a1, h1, s2, a2, h2, s3, a3, h3, s4, bw, h4, s5, avg, h5, s6, cods, h6,
    s7, res, h7, s8, fr, h8, s9, vr, h9, s10, ac, h10, s11, cc, h11, s12, a12, h12,
    s13, a13, h13, s14, uri, h14, s15, a15, h15, hfin⟩ := h
  injection hfin with hrest hel
  have e1 := (tag_eq_some.mp h1).2
  have e2 := (tag_eq_some.mp h2).2
  obtain ⟨p3, e3⟩ := consumes_space0 _ _ _ h3
  obtain ⟨p4, e4⟩ := consumes_map_res (consumes_ctp _ _) _ _ _ h4
  obtain ⟨p5, e5⟩ := consumes_map_res (consumes_ctp _ _) _ _ _ h5
  obtain ⟨p6, e6⟩ := consumes_map_res (consumes_ctp _ _) _ _ _ h6
  obtain ⟨p7, e7⟩ := consumes_map_res (consumes_ctp _ _) _ _ _ h7
  obtain ⟨p8, e8⟩ := consumes_map_res (consumes_ctp _ _) _ _ _ h8
  obtain ⟨p9, e9⟩ := consumes_ctp _ _ _ _ _ h9
  obtain ⟨p10, e10⟩ := consumes_ctp _ _ _ _ _ h10
  obtain ⟨p11, e11⟩ := consumes_map_res (consumes_ctp _ _) _ _ _ h11
  obtain ⟨p12, e12⟩ := consumes_space0 _ _ _ h12
  have e13 := newline_eq_some h13
  obtain ⟨e14, hmem, hshape⟩ := not_line_ending_eq_some h14
  subst hel
  refine ⟨_, lit "#EXT-X-" ++ (lit "STREAM-INF:" ++ (p3 ++ (p4 ++ (p5 ++ (p6 ++
    (p7 ++ (p8 ++ (p9 ++ (p10 ++ (p11 ++ p12)))))))))), s14, rfl, ?_, hmem, hshape⟩
  rw [e1, e2, e3, e4, e5, e6, e7, e8, e9, e10, e11, e12, e13, e14]
  simp [List.append_assoc]

theorem pvdq_run (v r : Chars) (hv : ∀ c ∈ v, ¬ c = '"') :
    param_value_double_quoted ('"' :: (v ++ '"' :: r)) = some (r, v) := by
  unfold param_value_double_quoted
  rw [map_res_eq_some]
  refine ⟨v, ?_, rfl⟩
  rw [bindNomP_eq, nbind_eq_some]
  refine ⟨v ++ '"' :: r, lit "\"", tag_eq_some.mpr ⟨rfl, rfl⟩, ?_⟩
  rw [bindNomP_eq, nbind_eq_some]
  refine ⟨'"' :: r, v, takeUntil_quote v r hv, ?_⟩
  rw [bindNomP_eq, nbind_eq_some]
  refine ⟨r, lit "\"", tag_eq_some.mpr ⟨rfl, rfl⟩, ?_⟩
  rw [npure_eq_some]

/-- Claim C8 (corrected): for every raw `CODECS` value (any quote-free
string), the parsed codec list is the `','`-split of the raw value with each
substring kept verbatim — order preserved, no deduplication, and no trimming
of whitespace. -/
theorem c8_codecs_split_verbatim (v : Chars) (hv : ∀ c ∈ v, ¬ c = '"') :
    stream_param_codec (lit "CODECS=" ++ '"' :: (v ++ ['"'])) = some ([], rustSplit ',' v) := by
  unfold stream_param_codec
  rw [map_res_eq_some]
  refine ⟨v, ?_, rfl⟩
  unfold comma_terminated_param
  rw [map_res_eq_some]
  refine ⟨v, ?_, rfl⟩
  rw [bindNomP_eq, nbind_eq_some]
  refine ⟨'=' :: '"' :: (v ++ ['"']), lit "CODECS", tag_eq_some.mpr ⟨rfl, rfl⟩, ?_⟩
  rw [bindNomP_eq, nbind_eq_some]
  refine ⟨'=' :: '"' :: (v ++ ['"']), [], rfl, ?_⟩
  rw [bindNomP_eq, nbind_eq_some]
  refine ⟨'"' :: (v ++ ['"']), lit "=", tag_eq_some.mpr ⟨rfl, rfl⟩, ?_⟩
  rw [bindNomP_eq, nbind_eq_some]
  refine ⟨'"' :: (v ++ ['"']), [], rfl, ?_⟩
  dsimp only
  rw [bindNomP_eq, nbind_eq_some]
  refine ⟨[], v, pvdq_run v [] hv, ?_⟩
  rw [bindNomP_eq, nbind_eq_some]
  refine ⟨[], [], rfl, ?_⟩
  rw [bindNomP_eq, nbind_eq_some]
  refine ⟨[], none, rfl, ?_⟩
  rw [npure_eq_some]

/-! ## Claim theorems, counterexamples and witnesses -/

/-- Counterexample to claim C1 as stated: swapping the first two recognized
attributes of a valid audio declaration makes the parse fail instead of
yielding the same record — attribute order does carry meaning. -/
theorem c1_permutation_counterexample : hls_audio audioLineSwapFirst = none := by
  decide

/-- Claim C1 (corrected): each declaration parser matches its recognized
attributes in one fixed source order, so only the unpermuted order parses:
the canonical audio and iframe lines parse to their records, while the same
lines with two recognized attributes swapped fail to parse. -/
theorem c1_fixed_attribute_order :
    hls_audio audioLine = some ([], HlsElement.Audio audioRecord) ∧
    hls_audio audioLineSwapLast = none ∧
    hls_iframe_stream_info iframeLine = some ([], HlsElement.IframeStreamInfo iframeRecord) ∧
    hls_iframe_stream_info iframeLineSwapped = none := by
  refine ⟨by decide, by decide, by decide, by decide⟩

/-- Claim C2 (corrected): `Resolution::from_str` succeeds exactly when the
first two `'x'`-separated segments parse as integers (extra separators are
ignored, not rejected: `"1x2x3"` yields `{1, 2}`); a non-numeric first segment
(such as `"960-540"`) is a conversion error, but a missing separator with a
numeric body (`"960"`) panics on out-of-bounds indexing instead of returning
an error. -/
theorem c2_resolution_from_str_amended :
    (∀ (s : Chars) (w h : Nat),
      Resolution.from_str s = .ok ⟨w, h⟩ ↔
        ∃ s0 s1 rest, rustSplit 'x' s = s0 :: s1 :: rest ∧
          usize_from_str s0 = some w ∧ usize_from_str s1 = some h) ∧
    Resolution.from_str (lit "960x540") = .ok ⟨960, 540⟩ ∧
    Resolution.from_str (lit "960-540") = .err "failed to parse pixed width: 960-540" ∧
    Resolution.from_str (lit "960") = .panic ∧
    Resolution.from_str (lit "1x2x3") = .ok ⟨1, 2⟩ :=
  ⟨resolution_from_str_characterization, by decide, by decide, by decide, by decide⟩

/-- Counterexample to claim C2 as stated: `"1x2x3"` has extra separators, so
the claim requires a conversion error, yet `from_str` succeeds with
`{width 1, height 2}`. -/
theorem c2_extra_separator_counterexample :
    Resolution.from_str (lit "1x2x3") = .ok ⟨1, 2⟩ := by
  decide

/-- Witness for C2: the characterization applied at `"2x3"`. -/
theorem c2_resolution_witness : Resolution.from_str (lit "2x3") = .ok ⟨2, 3⟩ :=
  (c2_resolution_from_str_amended.1 (lit "2x3") 2 3).mpr
    ⟨lit "2", lit "3", [], by decide, by decide, by decide⟩

/-- Claim C3 (code bug): the document of the crate's own `test_parse_no_data`
test — header, independent-segments marker, and the generic comment line
`# other comment` — fails to parse, because `parse_hls_playlist` has no
alternative for a generic `#` comment; the spec and the test both require the
comment line to be consumed with no data. -/
theorem c3_comment_line_unparsable : parse_hls_playlist commentDoc = .err parseFailureMsg := by
  decide

/-- Counterexample to claim C4 as stated: the audio declaration lacking `URI`
makes the whole parse fail with the generic nom-derived failure, which is not
the builder's structured missing-attribute message naming `Audio` and `URI`. -/
theorem c4_generic_error_counterexample :
    parse_hls_playlist audioMissingUriDoc = .err parseFailureMsg ∧
    ¬ parseFailureMsg = audioMissing P_URI := by
  refine ⟨by decide, by decide⟩

/-- Claim C4 (corrected): parsing a document whose audio declaration lacks
`URI` does fail, but with the generic parse error; the structured
`missing HLS audio param URI` failure is produced only by
`AudioBuilder::build`, which `parse_hls_playlist` never invokes. -/
theorem c4_missing_uri_fails_without_builder_error :
    parse_hls_playlist audioMissingUriDoc = .err parseFailureMsg ∧
    missingUriBuilder.build = .err (audioMissing P_URI) := by
  refine ⟨by decide, by decide⟩

/-- Witness for C5: the variant-stream fixture of `test_parse_stream`; the
parsed `common.uri` is exactly `hdr10/unenc/1650k/vod.m3u8`, the text of the
line following the attribute line. -/
theorem c5_variant_uri_witness :
    hls_stream_info streamDoc = some ([], HlsElement.StreamInfo streamRecord) ∧
    (∃ rec pre post, HlsElement.StreamInfo streamRecord = HlsElement.StreamInfo rec ∧
      streamDoc = pre ++ '\n' :: (rec.common.uri ++ post) ∧
      (∀ c ∈ rec.common.uri, isLineEnd c = false) ∧
      (post = [] ∨ (∃ t, post = '\n' :: t) ∨ (∃ t, post = '\r' :: t))) :=
  ⟨by decide, @c5_variant_uri_from_next_line streamDoc [] (HlsElement.StreamInfo streamRecord) (by decide)⟩

/-- Witness for C6: a document with one audio, one variant-stream and one
iframe declaration parses to sequences of exactly those records. -/
theorem c6_counts_witness :
    parse_hls_playlist sampleDoc = .ok samplePlaylist ∧
    (∃ components, all_consuming (many1 (alt hlsAlternatives)) sampleDoc = some ([], components) ∧
      samplePlaylist.audio_streams = components.filterMap projAudio ∧
      samplePlaylist.streams = components.filterMap projStream ∧
      samplePlaylist.iframe_streams = components.filterMap projIframe) :=
  ⟨by decide, c6_record_counts_and_order sampleDoc samplePlaylist (by decide)⟩

/-- Witness for C7: two version declarations (3 then 7) yield version 7 — the
last occurrence wins — and a document with no version declaration yields the
default 0. -/
theorem c7_version_witness :
    parse_hls_playlist twoVersionDoc = .ok ⟨[], [], [], 7⟩ ∧
    (∃ components, all_consuming (many1 (alt hlsAlternatives)) twoVersionDoc = some ([], components) ∧
      (7 : Nat) = ((components.filterMap projVersion).getLast?).getD 0) ∧
    parse_hls_playlist headerOnlyDoc = .ok ⟨[], [], [], 0⟩ ∧
    (∃ components, all_consuming (many1 (alt hlsAlternatives)) headerOnlyDoc = some ([], components) ∧
      (0 : Nat) = ((components.filterMap projVersion).getLast?).getD 0) :=
  ⟨by decide, c7_version_last_wins twoVersionDoc ⟨[], [], [], 7⟩ (by decide),
    by decide, c7_version_last_wins headerOnlyDoc ⟨[], [], [], 0⟩ (by decide)⟩

/-- Counterexample to claim C8 as stated: a `CODECS` value with a space after
the comma keeps that space — the second parsed codec is `" hvc1.2.4.L90.90"`,
not the trimmed `"hvc1.2.4.L90.90"` the claim requires. -/
theorem c8_codecs_not_trimmed_counterexample :
    stream_param_codec (lit "CODECS=\"mp4a.40.2, hvc1.2.4.L90.90\"") =
      some ([], [lit "mp4a.40.2", lit " hvc1.2.4.L90.90"]) ∧
    ¬ (lit " hvc1.2.4.L90.90" = lit "hvc1.2.4.L90.90") := by
  refine ⟨by decide, by decide⟩

/-- Witness for C8: the verbatim split applied to the fixture value. -/
theorem c8_codecs_witness :
    (∀ c ∈ lit "mp4a.40.2, hvc1.2.4.L90.90", ¬ c = '"') ∧
    stream_param_codec (lit "CODECS=" ++ '"' :: (lit "mp4a.40.2, hvc1.2.4.L90.90" ++ ['"'])) =
      some ([], [lit "mp4a.40.2", lit " hvc1.2.4.L90.90"]) :=
  ⟨by decide, (c8_codecs_split_verbatim (lit "mp4a.40.2, hvc1.2.4.L90.90") (by decide)).trans (by decide)⟩

/-- Claim C9 (confirmed): `Resolution::cmp` returns `Equal` for every pair
with equal widths regardless of heights, and for unequal widths it returns
the comparison of the heights, not of the widths. -/
theorem c9_resolution_cmp (a b : Resolution) :
    (a.width = b.width → Resolution.cmp a b = .eq) ∧
    (¬ a.width = b.width → Resolution.cmp a b = compare a.height b.height) := by
  constructor
  · intro h
    unfold Resolution.cmp
    rw [h, compare_eq_iff_eq.mpr rfl]
  · intro h
    unfold Resolution.cmp
    rcases hc : compare a.width b.width with _ | _ | _
    · rfl
    · exact absurd (compare_eq_iff_eq.mp hc) h
    · rfl

/-- Witness for C9: equal widths 100 compare `Equal` despite heights 200 and
900; unequal widths compare by height (5 against 4 gives `gt` even though the
first width is smaller). -/
theorem c9_resolution_cmp_witness :
    Resolution.cmp ⟨100, 200⟩ ⟨100, 900⟩ = .eq ∧
    Resolution.cmp ⟨100, 5⟩ ⟨200, 4⟩ = .gt :=
  ⟨(c9_resolution_cmp ⟨100, 200⟩ ⟨100, 900⟩).1 rfl,
    ((c9_resolution_cmp ⟨100, 5⟩ ⟨200, 4⟩).2 (by decide)).trans (by decide)⟩

/-- Counterexample to claim C10 as stated: `"2/JOC/x"` has the form `<n>/<s>`
with `s = "JOC/x" ≠ "JOC"`, so the claim requires `joc = false`, but the code
only inspects the second `'/'`-segment and sets `joc = true`. -/
theorem c10_joc_prefix_counterexample :
    AudioChannelInfo.from_str (lit "2/JOC/x") = .ok ⟨2, true⟩ ∧
    ¬ AudioChannelInfo.from_str (lit "2/JOC/x") = .ok ⟨2, false⟩ := by
  refine ⟨by decide, by decide⟩

/-- Witness for C10: `"2/FOO"` parses to channels 2 with `joc = false`. -/
theorem c10_channels_witness :
    usize_from_str (lit "2") = some 2 ∧
    (∀ c ∈ lit "FOO", ¬ c = '/') ∧
    ¬ (lit "FOO" = lit "JOC") ∧
    AudioChannelInfo.from_str (lit "2" ++ '/' :: lit "FOO") = .ok ⟨2, false⟩ :=
  ⟨by decide, by decide, by decide,
    c10_channels_unrecognized_segment (lit "2") (lit "FOO") 2 (by decide) (by decide) (by decide)⟩

end Hls
